import Mathlib

/-!
# Shallow embedding of the Noir-friendly RDF encoder (src/encode/src/main.rs)

The program reads an N-Quads text file, encodes each accepted line into five
decimal "field element" strings (subject, predicate, object, graph, numeric
value), each a non-negative integer strictly below the BN254 scalar-field
modulus, and writes the flat sequence as JSON.

Strings are modelled as Lean `String`s; bytes as `Nat`s below 256.  The byte
indices used by the Rust source when slicing the object token (`object_raw[1..]`,
`find('"')`) always fall on character boundaries (the characters sliced at are
the one-byte characters `"`), so the character-level model below is
extensionally identical to the byte-level source.
-/

set_option maxRecDepth 1000000

namespace Enc

/-- BN254 scalar field modulus (`BN254_SCALAR_MODULUS` in the source). -/
def MODULUS : Nat :=
  21888242871839275222246405745257275088548364400416034343698204186575808495617

/-- ASCII decimal digit test. -/
def isDigitCh (c : Char) : Bool := 48 ≤ c.toNat && c.toNat ≤ 57

/-- Value of a big-endian list of decimal digit characters. -/
def digitsVal (l : List Char) : Nat :=
  l.foldl (fun a c => a * 10 + (c.toNat - 48)) 0

/-- Big-endian decimal digit characters of `n` (empty for `n = 0`); the first
argument is fuel, always called with `10 ^ fuel > n`. -/
def natDigits : Nat → Nat → List Char
  | 0, _ => []
  | fuel + 1, n =>
      if n = 0 then []
      else natDigits fuel (n / 10) ++ [Char.ofNat (n % 10 + 48)]

/-- Rust's `to_string()` on an unsigned integer: canonical decimal rendering.
100 digits of fuel cover every value the encoder renders (all are below
`MODULUS < 10^78`). -/
def natToString (n : Nat) : String :=
  if n = 0 then "0" else ⟨natDigits 100 n⟩

/-- Strip one leading `+` sign. -/
def stripPlus (l : List Char) : List Char :=
  match l with
  | c :: r => if c = '+' then r else l
  | [] => []

/-- Model of Rust `str::parse::<u64>()`: an optional leading `+`, then at least
one ASCII digit, with the value below `2^64`; anything else fails. -/
def parseU64 (s : String) : Option Nat :=
  let ds := stripPlus s.data
  if ds ≠ [] ∧ ds.all isDigitCh then
    let v := digitsVal ds
    if v < 2 ^ 64 then some v else none
  else none

/-- Model of `num_bigint::BigUint::from_str` (used by the output verification
pass): an optional leading `+`, then at least one ASCII digit, no size bound. -/
def parseBigUint (s : String) : Option Nat :=
  let ds := stripPlus s.data
  if ds ≠ [] ∧ ds.all isDigitCh then some (digitsVal ds) else none

/-! ## UTF-8 bytes of a string (`term.as_bytes()` in the source) -/

/-- UTF-8 encoding of a single character, as a list of byte values. -/
def charUtf8 (c : Char) : List Nat :=
  let n := c.toNat
  if n < 0x80 then [n]
  else if n < 0x800 then
    [0xC0 ||| (n >>> 6), 0x80 ||| (n &&& 0x3F)]
  else if n < 0x10000 then
    [0xE0 ||| (n >>> 12), 0x80 ||| ((n >>> 6) &&& 0x3F), 0x80 ||| (n &&& 0x3F)]
  else
    [0xF0 ||| (n >>> 18), 0x80 ||| ((n >>> 12) &&& 0x3F),
     0x80 ||| ((n >>> 6) &&& 0x3F), 0x80 ||| (n &&& 0x3F)]

/-- UTF-8 bytes of a string. -/
def utf8Bytes (s : String) : List Nat :=
  (s.data.map charUtf8).flatten

/-! ## SHA-256 (the `sha2` crate call `Sha256::digest`, FIPS 180-4) -/

/-- Truncate to a 32-bit word. -/
def w32 (n : Nat) : Nat := n % 2 ^ 32

/-- Right-rotate a 32-bit word by `r`. -/
def rotr (r x : Nat) : Nat := w32 ((x >>> r) ||| (x <<< (32 - r)))

/-- SHA-256 round constants. -/
def shaK : List Nat :=
  [1116352408, 1899447441, 3049323471, 3921009573, 961987163,
   1508970993, 2453635748, 2870763221, 3624381080, 310598401,
   607225278, 1426881987, 1925078388, 2162078206, 2614888103,
   3248222580, 3835390401, 4022224774, 264347078, 604807628,
   770255983, 1249150122, 1555081692, 1996064986, 2554220882,
   2821834349, 2952996808, 3210313671, 3336571891, 3584528711,
   113926993, 338241895, 666307205, 773529912, 1294757372,
   1396182291, 1695183700, 1986661051, 2177026350, 2456956037,
   2730485921, 2820302411, 3259730800, 3345764771, 3516065817,
   3600352804, 4094571909, 275423344, 430227734, 506948616,
   659060556, 883997877, 958139571, 1322822218, 1537002063,
   1747873779, 1955562222, 2024104815, 2227730452, 2361852424,
   2428436474, 2756734187, 3204031479, 3329325298]

/-- SHA-256 initial hash state. -/
def shaH0 : List Nat :=
  [1779033703, 3144134277, 1013904242, 2773480762,
   1359893119, 2600822924, 528734635, 1541459225]

/-- Assemble consecutive 4-byte groups into big-endian 32-bit words. -/
def bytesToWords : List Nat → List Nat
  | b0 :: b1 :: b2 :: b3 :: rest =>
      (((b0 * 256 + b1) * 256 + b2) * 256 + b3) :: bytesToWords rest
  | _ => []

/-- Extend the 16 message words with `count` further schedule words. -/
def extendSchedule : Nat → List Nat → List Nat
  | 0, acc => acc
  | count + 1, acc =>
      let i := acc.length
      let g j := acc.getD (i - j) 0
      let s0 := w32 (Nat.xor (Nat.xor (rotr 7 (g 15)) (rotr 18 (g 15))) ((g 15) >>> 3))
      let s1 := w32 (Nat.xor (Nat.xor (rotr 17 (g 2)) (rotr 19 (g 2))) ((g 2) >>> 10))
      extendSchedule count (acc ++ [w32 (g 16 + s0 + g 7 + s1)])

/-- One SHA-256 compression round; the state is the 8-word working list. -/
def shaRound (st : List Nat) (kw : Nat × Nat) : List Nat :=
  match st with
  | [a, b, c, d, e, f, g, h] =>
      let S1 := Nat.xor (Nat.xor (rotr 6 e) (rotr 11 e)) (rotr 25 e)
      let ch := Nat.xor (Nat.land e f) (Nat.land (2 ^ 32 - 1 - e) g)
      let t1 := w32 (h + S1 + ch + kw.1 + kw.2)
      let S0 := Nat.xor (Nat.xor (rotr 2 a) (rotr 13 a)) (rotr 22 a)
      let mj := Nat.xor (Nat.xor (Nat.land a b) (Nat.land a c)) (Nat.land b c)
      let t2 := w32 (S0 + mj)
      [w32 (t1 + t2), a, b, c, w32 (d + t1), e, f, g]
  | st => st

/-- Compress one 64-byte block into the running hash state. -/
def shaBlock (hs : List Nat) (block : List Nat) : List Nat :=
  let ws := extendSchedule 48 (bytesToWords block)
  let st := (shaK.zip ws).foldl shaRound hs
  (hs.zip st).map fun p => w32 (p.1 + p.2)

/-- Split the padded message into 64-byte blocks (fuel-driven, fuel ≥ length). -/
def chunk64 : Nat → List Nat → List (List Nat)
  | _, [] => []
  | 0, _ => []
  | fuel + 1, l => l.take 64 :: chunk64 fuel (l.drop 64)

/-- Big-endian byte rendering of `n` in exactly `k` bytes. -/
def toBytesBE : Nat → Nat → List Nat
  | 0, _ => []
  | k + 1, n => toBytesBE k (n / 256) ++ [n % 256]

/-- SHA-256 padding: a `0x80` byte, zeros to 56 mod 64, then the bit length
as 8 big-endian bytes. -/
def shaPad (msg : List Nat) : List Nat :=
  let len := msg.length
  msg ++ [0x80] ++ List.replicate ((119 - len % 64) % 64) 0 ++ toBytesBE 8 (8 * len)

/-- SHA-256 digest of a byte list, as 32 bytes. -/
def sha256 (msg : List Nat) : List Nat :=
  let padded := shaPad msg
  let final := (chunk64 padded.length padded).foldl shaBlock shaH0
  (final.map (toBytesBE 4)).flatten

/-- Big-endian integer value of a byte list (`BigUint::from_bytes_be`). -/
def bytesToNatBE (l : List Nat) : Nat :=
  l.foldl (fun acc b => acc * 256 + b) 0

/-! ## The encoder's term-level operations -/

/-- `encode_string_term`: SHA-256 the UTF-8 bytes, read the digest as a
big-endian integer, reduce modulo `MODULUS`, render in decimal. -/
def encode_string_term (term : String) : String :=
  natToString (bytesToNatBE (sha256 (utf8Bytes term)) % MODULUS)

/-- `encode_numeric_term`: if the string parses as a `u64`, reduce the value
modulo `MODULUS` directly; otherwise hash it like any other string. -/
def encode_numeric_term (value : String) : String :=
  match parseU64 value with
  | some num => natToString (num % MODULUS)
  | none => encode_string_term value

/-- `term_to_field_element`: a string parsing as a `u64` below 1,000,000 is
rendered directly; everything else is hashed. -/
def term_to_field_element (term : String) : String :=
  match parseU64 term with
  | some num =>
      if num < 1000000 then natToString num else encode_string_term term
  | none => encode_string_term term

/-- The source's fast-path test: the string parses as a `u64` whose value is
below 1,000,000. -/
def takesFastPath (s : String) : Bool :=
  match parseU64 s with
  | some num => decide (num < 1000000)
  | none => false

/-! ## Quad-line parsing (`process_quad` and the `main` loop) -/

/-- Rust `char::is_whitespace`: the Unicode White_Space code points. -/
def isRustWs (c : Char) : Bool :=
  let n := c.toNat
  (9 ≤ n && n ≤ 13) || n = 32 || n = 0x85 || n = 0xA0 || n = 0x1680 ||
  (0x2000 ≤ n && n ≤ 0x200A) || n = 0x2028 || n = 0x2029 ||
  n = 0x202F || n = 0x205F || n = 0x3000

/-- Rust `str::trim`: strip whitespace from both ends. -/
def rustTrim (l : List Char) : List Char :=
  ((l.dropWhile isRustWs).reverse.dropWhile isRustWs).reverse

/-- Worker for `split_whitespace`: the accumulator holds the current token
reversed. -/
def splitWsAux : List Char → List Char → List (List Char)
  | [], [] => []
  | [], acc => [acc.reverse]
  | c :: rest, acc =>
      if isRustWs c then
        if acc.isEmpty then splitWsAux rest []
        else acc.reverse :: splitWsAux rest []
      else splitWsAux rest (c :: acc)

/-- `quad_str.trim().split_whitespace().collect()` from the source. -/
def tokensOf (s : String) : List (List Char) :=
  splitWsAux (rustTrim s.data) []

/-- Rust `str::trim_matches(c)`: strip every leading and trailing `c`. -/
def trimMatches (c : Char) (l : List Char) : List Char :=
  ((l.dropWhile (· == c)).reverse.dropWhile (· == c)).reverse

/-- Strip `<` then `>` from both ends, the source's IRI cleanup. -/
def stripAngles (l : List Char) : List Char :=
  trimMatches '>' (trimMatches '<' l)

/-- Rust `trim_start_matches("^^")`: strip every leading `^^`. -/
def trimStartCarets : List Char → List Char
  | '^' :: '^' :: r => trimStartCarets r
  | l => l

/-- `pat` begins `l` (Rust `starts_with`). -/
def startsWithList : List Char → List Char → Bool
  | [], _ => true
  | _, [] => false
  | p :: ps, c :: cs => p == c && startsWithList ps cs

/-- `pat` occurs contiguously in `l` (Rust `str::contains`). -/
def hasSubstr (pat : List Char) : List Char → Bool
  | [] => pat.isEmpty
  | c :: rest => startsWithList pat (c :: rest) || hasSubstr pat rest

/-- Index of the first `"` (Rust `find('"')` — character positions coincide
with byte positions at every index the source slices at). -/
def findQuote : List Char → Option Nat
  | [] => none
  | c :: r => if c = '"' then some 0 else (findQuote r).map (· + 1)

/-- The object/numeric extraction of `process_quad`, given the token list:
returns the object display string and the numeric string. -/
def objectAndNumeric (parts : List (List Char)) : List Char × List Char :=
  let object_raw := parts.getD 2 []
  match object_raw with
  | '"' :: tail =>
      let end_quote := ((findQuote tail).getD (object_raw.length - 1)) + 1
      let literal_value := tail.take (end_quote - 1)
      if parts.length > 3 && startsWithList ['^', '^'] (parts.getD 3 []) then
        let datatype := stripAngles (trimStartCarets (parts.getD 3 []))
        if hasSubstr ['i', 'n', 't', 'e', 'g', 'e', 'r'] datatype
            || hasSubstr ['i', 'n', 't'] datatype then
          (literal_value ++ ['^', '^'] ++ datatype, literal_value)
        else
          (literal_value ++ ['^', '^'] ++ datatype, ['0'])
      else
        (literal_value, ['0'])
  | _ => (stripAngles object_raw, ['0'])

/-- `process_quad`: tokenize the line, reject it when fewer than 3 tokens,
else produce the five field-element strings (subject, predicate, object,
graph, numeric value).  The graph string is always empty in the source. -/
def process_quad (quad : String) : Except String (List String) :=
  let parts := tokensOf quad
  if parts.length < 3 then
    .error ("Invalid quad: " ++ quad)
  else
    let subject := stripAngles (parts.getD 0 [])
    let predicate := stripAngles (parts.getD 1 [])
    let onum := objectAndNumeric parts
    .ok [term_to_field_element ⟨subject⟩,
         term_to_field_element ⟨predicate⟩,
         term_to_field_element ⟨onum.1⟩,
         term_to_field_element "",
         encode_numeric_term ⟨onum.2⟩]

/-! ## The main loop: line filtering, accumulation, verification, output -/

/-- Split on `'\n'`; the accumulator holds the current segment reversed. -/
def splitNlAux : List Char → List Char → List (List Char)
  | [], acc => [acc.reverse]
  | '\n' :: r, acc => acc.reverse :: splitNlAux r []
  | c :: r, acc => splitNlAux r (c :: acc)

/-- Drop one trailing `'\r'`. -/
def stripCr (l : List Char) : List Char :=
  match l.getLast? with
  | some '\r' => l.dropLast
  | _ => l

/-- Rust `str::lines`: split on `'\n'`, drop the final empty segment, strip
one trailing `'\r'` from each line. -/
def rustLines (s : String) : List String :=
  let segs := splitNlAux s.data []
  let segs := if segs.getLast? = some [] then segs.dropLast else segs
  segs.map fun l => ⟨stripCr l⟩

/-- The `main` filter: keep lines that are non-blank after trimming and do
not begin with `#`. -/
def isAccepted (line : String) : Bool :=
  !(rustTrim line.data).isEmpty && !startsWithList ['#'] line.data

/-- The lines `main` feeds to `process_quad`, in input order. -/
def acceptedLines (content : String) : List String :=
  (rustLines content).filter isAccepted

/-- The accumulation loop of `main`: encode every line, concatenating the
5-tuples in order; the first failure aborts the run. -/
def encodeAll : List String → Except String (List String)
  | [] => .ok []
  | l :: rest =>
      match process_quad l with
      | .ok es =>
          match encodeAll rest with
          | .ok out => .ok (es ++ out)
          | .error e => .error e
      | .error e => .error e

/-- The output verification pass of `main`: every element must re-parse as an
integer below the modulus (the source panics otherwise). -/
def verifyAll (out : List String) : Bool :=
  out.all fun e =>
    match parseBigUint e with
    | some v => decide (v < MODULUS)
    | none => false

/-- What `main` persists to the output file: `some` sequence only when every
accepted line encodes successfully and verification passes; `none` models
"no output file written". -/
def mainOutput (content : String) : Option (List String) :=
  match encodeAll (acceptedLines content) with
  | .ok out => if verifyAll out then some out else none
  | .error _ => none

/-! ## Decimal rendering and parsing round-trip -/

theorem natDigits_zero (fuel : Nat) : natDigits fuel 0 = [] := by
  cases fuel <;> simp [natDigits]

theorem digitsVal_append_singleton (xs : List Char) (c : Char) :
    digitsVal (xs ++ [c]) = digitsVal xs * 10 + (c.toNat - 48) := by
  simp [digitsVal, List.foldl_append]

theorem digitChar_spec (d : Nat) (hd : d < 10) :
    (Char.ofNat (d + 48)).toNat = d + 48 ∧ isDigitCh (Char.ofNat (d + 48)) = true := by
  interval_cases d <;> exact ⟨by decide, by decide⟩

theorem natDigits_spec :
    ∀ fuel n, 0 < n → n < 10 ^ fuel →
      natDigits fuel n ≠ [] ∧ (natDigits fuel n).all isDigitCh = true ∧
        digitsVal (natDigits fuel n) = n := by
  intro fuel
  induction fuel with
  | zero => intro n h0 hlt; omega
  | succ fuel ih =>
    intro n h0 hlt
    have hne : n ≠ 0 := by omega
    have hmod : n % 10 < 10 := Nat.mod_lt _ (by norm_num)
    have hchar := digitChar_spec (n % 10) hmod
    simp only [natDigits, hne, if_false]
    rcases Nat.eq_zero_or_pos (n / 10) with hq | hq
    · have hn10 : n < 10 := by
        rcases Nat.lt_or_ge n 10 with h | h
        · exact h
        · exact absurd (Nat.div_le_div_right (c := 10) h) (by simp [hq])
      refine ⟨by simp, ?_, ?_⟩
      · simp [hq, natDigits_zero, hchar.2]
      · rw [hq, natDigits_zero, digitsVal_append_singleton, hchar.1]
        simp only [digitsVal, List.foldl_nil]
        omega
    · have hqlt : n / 10 < 10 ^ fuel := by
        rw [Nat.div_lt_iff_lt_mul (by norm_num)]
        calc n < 10 ^ (fuel + 1) := hlt
        _ = 10 ^ fuel * 10 := by ring
      obtain ⟨hne', hall', hval'⟩ := ih (n / 10) hq hqlt
      refine ⟨by simp, ?_, ?_⟩
      · simp [List.all_append, hall', hchar.2]
      · rw [digitsVal_append_singleton, hval', hchar.1]
        omega

theorem isDigitCh_ne_plus {c : Char} (h : isDigitCh c = true) : ¬ c = '+' := by
  intro hc; subst hc; simp [isDigitCh] at h

theorem parseBigUint_natToString (n : Nat) (hn : n < 10 ^ 100) :
    parseBigUint (natToString n) = some n := by
  rcases Nat.eq_zero_or_pos n with h0 | h0
  · subst h0; decide
  · have hne : n ≠ 0 := by omega
    obtain ⟨hnil, hall, hval⟩ := natDigits_spec 100 n h0 hn
    rw [natToString, if_neg hne]
    rcases hd : natDigits 100 n with _ | ⟨c, rest⟩
    · exact absurd hd hnil
    · have hcdigit : isDigitCh c = true := by
        rw [hd] at hall; simp [List.all_cons] at hall; simp [hall.1]
      have hplus : ¬ c = '+' := isDigitCh_ne_plus hcdigit
      rw [hd] at hall hval
      simp only [parseBigUint, stripPlus]
      rw [if_neg hplus]
      rw [if_pos ⟨by simp, hall⟩]
      rw [hval]

/-! ## Every encoder output is a rendered value below the modulus -/

theorem MODULUS_pos : 0 < MODULUS := by decide

theorem MODULUS_lt_ten_pow : MODULUS < 10 ^ 100 := by decide

theorem encode_string_term_def (s : String) :
    encode_string_term s =
      natToString (bytesToNatBE (sha256 (utf8Bytes s)) % MODULUS) := rfl

theorem encode_string_term_parses (s : String) :
    ∃ v, parseBigUint (encode_string_term s) = some v ∧ v < MODULUS := by
  refine ⟨bytesToNatBE (sha256 (utf8Bytes s)) % MODULUS, ?_, Nat.mod_lt _ MODULUS_pos⟩
  exact parseBigUint_natToString _
    (lt_trans (Nat.mod_lt _ MODULUS_pos) MODULUS_lt_ten_pow)

theorem ttfe_of_parse_none {s : String} (h : parseU64 s = none) :
    term_to_field_element s = encode_string_term s := by
  simp [term_to_field_element, h]

theorem ttfe_of_small {s : String} {n : Nat} (h : parseU64 s = some n)
    (hlt : n < 1000000) : term_to_field_element s = natToString n := by
  simp [term_to_field_element, h, hlt]

theorem ttfe_of_large {s : String} {n : Nat} (h : parseU64 s = some n)
    (hlt : ¬ n < 1000000) : term_to_field_element s = encode_string_term s := by
  simp [term_to_field_element, h, hlt]

theorem ent_of_parse {s : String} {n : Nat} (h : parseU64 s = some n) :
    encode_numeric_term s = natToString (n % MODULUS) := by
  simp [encode_numeric_term, h]

theorem ent_of_none {s : String} (h : parseU64 s = none) :
    encode_numeric_term s = encode_string_term s := by
  simp [encode_numeric_term, h]

theorem term_to_field_element_parses (s : String) :
    ∃ v, parseBigUint (term_to_field_element s) = some v ∧ v < MODULUS := by
  cases h : parseU64 s with
  | none => rw [ttfe_of_parse_none h]; exact encode_string_term_parses s
  | some num =>
    by_cases hlt : num < 1000000
    · rw [ttfe_of_small h hlt]
      refine ⟨num, ?_, lt_trans hlt (by decide)⟩
      exact parseBigUint_natToString _ (lt_trans (lt_trans hlt (by decide)) MODULUS_lt_ten_pow)
    · rw [ttfe_of_large h hlt]
      exact encode_string_term_parses s

theorem encode_numeric_term_parses (s : String) :
    ∃ v, parseBigUint (encode_numeric_term s) = some v ∧ v < MODULUS := by
  cases h : parseU64 s with
  | none => rw [ent_of_none h]; exact encode_string_term_parses s
  | some num =>
    rw [ent_of_parse h]
    refine ⟨num % MODULUS, ?_, Nat.mod_lt _ MODULUS_pos⟩
    exact parseBigUint_natToString _
      (lt_trans (Nat.mod_lt _ MODULUS_pos) MODULUS_lt_ten_pow)

/-! ## Shape of `process_quad` results -/

theorem process_quad_err {quad : String} (h : (tokensOf quad).length < 3) :
    process_quad quad = .error ("Invalid quad: " ++ quad) := by
  simp [process_quad, h]

theorem process_quad_ok_eq {quad : String} (h : ¬ (tokensOf quad).length < 3) :
    process_quad quad =
      .ok [term_to_field_element ⟨stripAngles ((tokensOf quad).getD 0 [])⟩,
           term_to_field_element ⟨stripAngles ((tokensOf quad).getD 1 [])⟩,
           term_to_field_element ⟨(objectAndNumeric (tokensOf quad)).1⟩,
           term_to_field_element "",
           encode_numeric_term ⟨(objectAndNumeric (tokensOf quad)).2⟩] := by
  simp [process_quad, h]

theorem process_quad_ok_shape {quad : String} {es : List String}
    (h : process_quad quad = .ok es) :
    es.length = 5 ∧ es.getD 3 "" = term_to_field_element "" ∧
      ∀ e ∈ es, ∃ v, parseBigUint e = some v ∧ v < MODULUS := by
  by_cases hlen : (tokensOf quad).length < 3
  · rw [process_quad_err hlen] at h; cases h
  · rw [process_quad_ok_eq hlen] at h
    injection h with h
    subst h
    refine ⟨rfl, rfl, ?_⟩
    intro e he
    simp only [List.mem_cons, List.not_mem_nil, or_false] at he
    rcases he with rfl | rfl | rfl | rfl | rfl
    · exact term_to_field_element_parses _
    · exact term_to_field_element_parses _
    · exact term_to_field_element_parses _
    · exact term_to_field_element_parses _
    · exact encode_numeric_term_parses _

/-! ## The accumulation loop -/

theorem encodeAll_range :
    ∀ (L : List String) (out : List String), encodeAll L = .ok out →
      ∀ e ∈ out, ∃ v, parseBigUint e = some v ∧ v < MODULUS := by
  intro L
  induction L with
  | nil => intro out h e he; cases h; cases he
  | cons l rest ih =>
    intro out h e he
    simp only [encodeAll] at h
    cases hpq : process_quad l with
    | error msg => rw [hpq] at h; cases h
    | ok es =>
      rw [hpq] at h
      cases hrest : encodeAll rest with
      | error msg => rw [hrest] at h; cases h
      | ok out' =>
        rw [hrest] at h
        cases h
        rcases List.mem_append.mp he with hl | hr
        · exact (process_quad_ok_shape hpq).2.2 e hl
        · exact ih out' hrest e hr

theorem encodeAll_err :
    ∀ (L : List String) (line : String), line ∈ L →
      (tokensOf line).length < 3 → ∃ msg, encodeAll L = .error msg := by
  intro L
  induction L with
  | nil => intro line h; cases h
  | cons l rest ih =>
    intro line hmem hlen
    simp only [encodeAll]
    rcases List.mem_cons.mp hmem with rfl | hr
    · rw [process_quad_err hlen]
      exact ⟨_, rfl⟩
    · cases hpq : process_quad l with
      | error msg => exact ⟨msg, rfl⟩
      | ok es =>
        obtain ⟨msg, hmsg⟩ := ih line hr hlen
        rw [hmsg]
        exact ⟨msg, rfl⟩

theorem encodeAll_ok :
    ∀ L : List String, (∀ l ∈ L, ¬ (tokensOf l).length < 3) →
      ∃ tuples : List (List String),
        List.Forall₂ (fun l es => process_quad l = .ok es ∧ es.length = 5) L tuples ∧
        encodeAll L = .ok tuples.flatten := by
  intro L
  induction L with
  | nil => exact fun _ => ⟨[], List.Forall₂.nil, rfl⟩
  | cons l rest ih =>
    intro h
    obtain ⟨tuples, hfa, henc⟩ := ih fun x hx => h x (List.mem_cons_of_mem _ hx)
    have hl := h l (List.mem_cons_self _ _)
    refine ⟨_ :: tuples, List.Forall₂.cons ⟨process_quad_ok_eq hl, rfl⟩ hfa, ?_⟩
    simp only [encodeAll, process_quad_ok_eq hl, henc, List.flatten_cons]

theorem flatten_length_of_forall₂ :
    ∀ {L : List String} {tuples : List (List String)},
      List.Forall₂ (fun l es => process_quad l = .ok es ∧ es.length = 5) L tuples →
      tuples.flatten.length = 5 * L.length := by
  intro L tuples h
  induction h with
  | nil => rfl
  | cons h _ ih =>
    simp only [List.flatten_cons, List.length_append, List.length_cons, ih, h.2]
    ring

theorem verifyAll_of_range {out : List String}
    (h : ∀ e ∈ out, ∃ v, parseBigUint e = some v ∧ v < MODULUS) :
    verifyAll out = true := by
  rw [verifyAll, List.all_eq_true]
  intro e he
  obtain ⟨v, hv, hlt⟩ := h e he
  rw [hv]
  simpa using hlt

/-! ## Sanity: the embedded digest function is SHA-256 (FIPS 180-4 vectors) -/

theorem sha256_vector_empty :
    bytesToNatBE (sha256 []) =
      102987336249554097029535212322581322789799900648198034993379397001115665086549 := by decide

theorem sha256_vector_abc :
    bytesToNatBE (sha256 (utf8Bytes "abc")) =
      84342368487090800366523834928142263660104883695016514377462985829716817089965 := by decide

/-! ## Claim theorems -/

/-- C1: every field-element string produced for an accepted quad — and hence
every element of a successfully accumulated output sequence — parses as a
non-negative integer strictly below the BN254 modulus. -/
theorem C1_every_element_in_range :
    (∀ quad es, process_quad quad = Except.ok es →
      ∀ e ∈ es, ∃ v, parseBigUint e = some v ∧ v < MODULUS) ∧
    (∀ L out, encodeAll L = Except.ok out →
      ∀ e ∈ out, ∃ v, parseBigUint e = some v ∧ v < MODULUS) :=
  ⟨fun _ _ h => (process_quad_ok_shape h).2.2,
   fun L out h => encodeAll_range L out h⟩

/-- Witness for C1 at the concrete line `1 2 3`. -/
theorem C1_every_element_in_range_witness :
    ∃ v, parseBigUint (term_to_field_element "1") = some v ∧ v < MODULUS :=
  C1_every_element_in_range.1 "1 2 3"
    [term_to_field_element "1", term_to_field_element "2", term_to_field_element "3",
     term_to_field_element "", encode_numeric_term "0"]
    rfl (term_to_field_element "1") (by simp)

/-- C2 (code bug): on the standard N-Quads line
`<http://s> <http://p> "42"^^<http://www.w3.org/2001/XMLSchema#integer> .`
the datatype suffix is attached to the object token, so the code's
separate-token test `parts[3].starts_with("^^")` never fires and the
NumericValue slot is `encode_numeric("0") = "0"`, not `encode_numeric("42")`;
the intended extraction only happens when the `^^<...>` is (non-standardly)
whitespace-separated. -/
theorem C2_numeric_slot_zero_on_standard_nquads :
    ((process_quad "<http://s> <http://p> \"42\"^^<http://www.w3.org/2001/XMLSchema#integer> .").toOption.getD []).getD 4 "" =
      encode_numeric_term "0" ∧
    encode_numeric_term "0" = "0" ∧
    encode_numeric_term "42" = "42" ∧
    ((process_quad "<http://s> <http://p> \"42\"^^<http://www.w3.org/2001/XMLSchema#integer> .").toOption.getD []).getD 4 "" ≠
      encode_numeric_term "42" ∧
    ((process_quad "<http://s> <http://p> \"42\" ^^<http://www.w3.org/2001/XMLSchema#integer> .").toOption.getD []).getD 4 "" =
      encode_numeric_term "42" :=
  ⟨rfl, rfl, rfl, by decide, rfl⟩

/-- C3 counterexample: on a line that names a graph
(`<http://s> <http://p> <http://o> <http://g> .`), the Graph slot is the
encoding of the empty string, not the encoding of `http://g`. -/
theorem C3_named_graph_counterexample :
    ((process_quad "<http://s> <http://p> <http://o> <http://g> .").toOption.getD []).getD 3 "" =
      term_to_field_element "" ∧
    ((process_quad "<http://s> <http://p> <http://o> <http://g> .").toOption.getD []).getD 3 "" ≠
      term_to_field_element "http://g" :=
  ⟨rfl, by decide⟩

/-- C3 amended: the fourth element of every accepted line's EncodedQuad is
`encode_term("")` — the code always uses the empty (default) graph and
ignores any named-graph token. -/
theorem C3_graph_slot_always_default :
    ∀ quad es, process_quad quad = Except.ok es →
      es.getD 3 "" = term_to_field_element "" :=
  fun _ _ h => (process_quad_ok_shape h).2.1

/-- Witness for the amended C3 at the concrete line `1 2 3`. -/
theorem C3_graph_slot_always_default_witness :
    ([term_to_field_element "1", term_to_field_element "2", term_to_field_element "3",
      term_to_field_element "", encode_numeric_term "0"] : List String).getD 3 "" =
      term_to_field_element "" :=
  C3_graph_slot_always_default "1 2 3" _ rfl

/-- C4 counterexample: `"18446744073709551616"` (= 2^64) parses as a
non-negative integer, but the code's `u64` parse rejects it, so
`encode_numeric` hashes it instead of reducing 2^64 modulo the modulus. -/
theorem C4_large_numeric_counterexample :
    parseBigUint "18446744073709551616" = some (2 ^ 64) ∧
    parseU64 "18446744073709551616" = none ∧
    encode_numeric_term "18446744073709551616" =
      encode_string_term "18446744073709551616" ∧
    encode_numeric_term "18446744073709551616" ≠ natToString (2 ^ 64 % MODULUS) :=
  ⟨by decide, by decide, rfl, by decide⟩

/-- C4 amended: a string accepted by the `u64` parser (value < 2^64) is
reduced modulo the modulus directly, with no hashing; every other string —
including decimal strings of magnitude ≥ 2^64 — falls back to the same value
as `encode_term` on that string. -/
theorem C4_numeric_reduction_u64 :
    (∀ s n, parseU64 s = some n →
      encode_numeric_term s = natToString (n % MODULUS)) ∧
    (∀ s, parseU64 s = none →
      encode_numeric_term s = term_to_field_element s) :=
  ⟨fun _ _ h => ent_of_parse h,
   fun _ h => (ent_of_none h).trans (ttfe_of_parse_none h).symm⟩

/-- Witness for the amended C4 at `"123"` and `"not_a_number"`. -/
theorem C4_numeric_reduction_u64_witness :
    encode_numeric_term "123" = natToString (123 % MODULUS) ∧
    encode_numeric_term "not_a_number" = term_to_field_element "not_a_number" :=
  ⟨C4_numeric_reduction_u64.1 "123" 123 (by decide),
   C4_numeric_reduction_u64.2 "not_a_number" (by decide)⟩

/-- C5: a string parsing as a `u64` below 1,000,000 is returned directly as
its decimal rendering; any string failing that test is hashed; in particular
`encode_term("42") = "42"`, `encode_term("999999") = "999999"`, and
`encode_term("1000000")` differs from `"1000000"`. -/
theorem C5_small_integer_fast_path :
    (∀ s n, parseU64 s = some n → n < 1000000 →
      term_to_field_element s = natToString n) ∧
    (∀ s, takesFastPath s = false →
      term_to_field_element s = encode_string_term s) ∧
    term_to_field_element "42" = "42" ∧
    term_to_field_element "999999" = "999999" ∧
    term_to_field_element "1000000" ≠ "1000000" := by
  refine ⟨fun _ _ h hlt => ttfe_of_small h hlt, ?_, rfl, rfl, by decide⟩
  intro s hf
  cases h : parseU64 s with
  | none => exact ttfe_of_parse_none h
  | some num =>
    rw [takesFastPath, h] at hf
    exact ttfe_of_large h (by simpa using hf)

/-- Witness for C5 at `"7"` (fast path) and `"1000000"` (hash path). -/
theorem C5_small_integer_fast_path_witness :
    term_to_field_element "7" = natToString 7 ∧
    term_to_field_element "1000000" = encode_string_term "1000000" :=
  ⟨C5_small_integer_fast_path.1 "7" 7 (by decide) (by decide),
   C5_small_integer_fast_path.2.1 "1000000" (by decide)⟩

/-- C6: every string that does not take the small-integer fast path is encoded
as the SHA-256 digest of its UTF-8 bytes, read as a big-endian integer,
reduced modulo the modulus, rendered in decimal. -/
theorem C6_hash_path_is_sha256_mod :
    ∀ s, takesFastPath s = false →
      term_to_field_element s =
        natToString (bytesToNatBE (sha256 (utf8Bytes s)) % MODULUS) := by
  intro s hf
  cases h : parseU64 s with
  | none => exact ttfe_of_parse_none h
  | some num =>
    rw [takesFastPath, h] at hf
    exact ttfe_of_large h (by simpa using hf)

/-- Witness for C6 at `"1000000"`. -/
theorem C6_hash_path_is_sha256_mod_witness :
    term_to_field_element "1000000" =
      natToString (bytesToNatBE (sha256 (utf8Bytes "1000000")) % MODULUS) :=
  C6_hash_path_is_sha256_mod "1000000" (by decide)

/-- C7: a non-blank, non-comment line with fewer than 3 whitespace tokens
makes `process_quad` fail, the accumulation loop returns an error, and no
output is persisted. -/
theorem C7_malformed_line_halts_run :
    ∀ content line, line ∈ acceptedLines content →
      (tokensOf line).length < 3 →
      process_quad line = Except.error ("Invalid quad: " ++ line) ∧
      (∃ msg, encodeAll (acceptedLines content) = Except.error msg) ∧
      mainOutput content = none := by
  intro content line hmem hlen
  obtain ⟨msg, hmsg⟩ := encodeAll_err _ line hmem hlen
  refine ⟨process_quad_err hlen, ⟨msg, hmsg⟩, ?_⟩
  simp [mainOutput, hmsg]

/-- Witness for C7 on the input file `a b\n`. -/
theorem C7_malformed_line_halts_run_witness :
    process_quad "a b" = Except.error ("Invalid quad: " ++ "a b") ∧
    (∃ msg, encodeAll (acceptedLines "a b\n") = Except.error msg) ∧
    mainOutput "a b\n" = none :=
  C7_malformed_line_halts_run "a b\n" "a b" (by decide) (by decide)

/-- C8: when every accepted line has at least 3 tokens, the run succeeds and
the persisted output is the concatenation, in input line order, of one
5-tuple per accepted line — 5·N elements for N accepted lines; skipped
blank/comment lines contribute nothing, since only `acceptedLines` is
encoded. -/
theorem C8_output_is_ordered_five_tuples :
    ∀ content, (∀ l ∈ acceptedLines content, ¬ (tokensOf l).length < 3) →
      ∃ tuples : List (List String),
        List.Forall₂ (fun l es => process_quad l = Except.ok es ∧ es.length = 5)
          (acceptedLines content) tuples ∧
        encodeAll (acceptedLines content) = Except.ok tuples.flatten ∧
        mainOutput content = some tuples.flatten ∧
        tuples.flatten.length = 5 * (acceptedLines content).length := by
  intro content h
  obtain ⟨tuples, hfa, henc⟩ := encodeAll_ok _ h
  refine ⟨tuples, hfa, henc, ?_, flatten_length_of_forall₂ hfa⟩
  have hrange := encodeAll_range _ _ henc
  simp [mainOutput, henc, verifyAll_of_range hrange]

/-- Witness for C8 on a 2-quad input with a comment and a blank line. -/
theorem C8_output_is_ordered_five_tuples_witness :
    ∃ tuples : List (List String),
      List.Forall₂ (fun l es => process_quad l = Except.ok es ∧ es.length = 5)
        (acceptedLines "1 2 3\n# comment\n\n4 5 6\n") tuples ∧
      encodeAll (acceptedLines "1 2 3\n# comment\n\n4 5 6\n") = Except.ok tuples.flatten ∧
      mainOutput "1 2 3\n# comment\n\n4 5 6\n" = some tuples.flatten ∧
      tuples.flatten.length = 5 * (acceptedLines "1 2 3\n# comment\n\n4 5 6\n").length :=
  C8_output_is_ordered_five_tuples "1 2 3\n# comment\n\n4 5 6\n" (by decide)

/-- C9: the fast path canonicalizes — any `u64`-accepted spelling of a value
below 1,000,000 (with leading zeros or a leading `+`) is rendered as the
canonical decimal of the value, so distinct spellings of one value collide. -/
theorem C9_fast_path_canonicalizes :
    (∀ s n, parseU64 s = some n → n < 1000000 →
      term_to_field_element s = natToString n) ∧
    term_to_field_element "0042" = "42" ∧
    term_to_field_element "+42" = "42" ∧
    term_to_field_element "0042" = term_to_field_element "42" ∧
    term_to_field_element "+42" = term_to_field_element "42" :=
  ⟨fun _ _ h hlt => ttfe_of_small h hlt, rfl, rfl, rfl, rfl⟩

/-- Witness for C9 at `"0007"`. -/
theorem C9_fast_path_canonicalizes_witness :
    term_to_field_element "0007" = natToString 7 :=
  C9_fast_path_canonicalizes.1 "0007" 7 (by decide) (by decide)

/-- C10: `process_quad` succeeds with exactly 5 elements precisely on lines
with at least 3 whitespace tokens, and fails (only) with the malformed-quad
error below 3 — including degenerate objects such as an unterminated quoted
literal or a lone quote. -/
theorem C10_total_iff_three_tokens :
    ∀ quad,
      ((∃ es, process_quad quad = Except.ok es ∧ es.length = 5) ↔
        3 ≤ (tokensOf quad).length) ∧
      ((tokensOf quad).length < 3 →
        process_quad quad = Except.error ("Invalid quad: " ++ quad)) := by
  intro quad
  refine ⟨⟨?_, ?_⟩, process_quad_err⟩
  · rintro ⟨es, hok, -⟩
    by_contra h
    rw [process_quad_err (by omega)] at hok
    cases hok
  · intro h
    exact ⟨_, process_quad_ok_eq (by omega), rfl⟩

/-- Witness for C10: an unterminated literal and a lone quote both yield 5
elements; a 2-token line yields the error. -/
theorem C10_total_iff_three_tokens_witness :
    (∃ es, process_quad "a b \"unclosed" = Except.ok es ∧ es.length = 5) ∧
    (∃ es, process_quad "a b \"" = Except.ok es ∧ es.length = 5) ∧
    process_quad "a b" = Except.error ("Invalid quad: " ++ "a b") :=
  ⟨(C10_total_iff_three_tokens "a b \"unclosed").1.mpr (by decide),
   (C10_total_iff_three_tokens "a b \"").1.mpr (by decide),
   (C10_total_iff_three_tokens "a b").2 (by decide)⟩

end Enc
